import Mathlib

/-!
Shallow embedding of the `barry` HCL formatter (Go sources
`formatters.go`, `helpers.go`, `main.go`) and verification of its
specification claims.

Byte buffers are modelled as `List Char`; token streams as `List Token`.
The external hashicorp lexer, parser and serializer are not reimplemented:
where a function of the repository calls into them, the embedding takes
the lexed token stream or the parse outcome as an explicit argument.
-/

/-- Token kinds, covering the `hclsyntax.TokenType` values that the
formatter inspects.  All kinds it never distinguishes are `other`. -/
inductive TokenType where
  | ident
  | oQuote
  | cQuote
  | quotedLit
  | templateInterp
  | templateSeqEnd
  | comment
  | newline
  | oBrace
  | cBrace
  | oParen
  | cParen
  | eof
  | other
deriving DecidableEq, Repr

/-- A token: kind, raw bytes, and the start column of its source range
(the only position datum the formatter reads).  `hclwrite` tokens carry
no range; tokens built fresh by the formatter get column 1. -/
structure Token where
  ttype : TokenType
  bytes : List Char
  col : Nat := 1
deriving DecidableEq, Repr

/-- `helpers.go trimNewlines`: drop leading and trailing newline tokens.
The source computes a start and an end index with two scans and returns
the slice between them; on an all-newline input those indexes cross and
the Go slice expression would fault, a case unreachable from parsed
expressions and modelled here as the empty sequence. -/
def trimNewlines (tokens : List Token) : List Token :=
  ((tokens.dropWhile (fun t => t.ttype == .newline)).reverse.dropWhile
    (fun t => t.ttype == .newline)).reverse

/-- The interior scan of `formatValueExpr` (formatters.go 213-241): walk
the tokens keeping the signed `quotes` counter; return `false` exactly
when the source's loop takes one of its two early `return tokens` exits
(a template delimiter or quoted literal seen while `quotes <= 0`). -/
def scanInterior (quotes : Int) : List Token → Bool
  | [] => true
  | t :: rest =>
    if t.ttype == .oQuote then scanInterior (quotes + 1) rest
    else if t.ttype == .cQuote then scanInterior (quotes - 1) rest
    else if quotes > 0 then scanInterior quotes rest
    else if t.ttype == .templateInterp || t.ttype == .templateSeqEnd then false
    else if t.ttype == .quotedLit then false
    else scanInterior quotes rest

/-- The delimiter-shape test of `formatValueExpr` (formatters.go 196-203):
tokens[0] open quote, tokens[1] interpolation open, tokens[len-2]
interpolation close, tokens[len-1] close quote. -/
def wrapShape (ts : List Token) : Bool :=
  match ts.get? 0, ts.get? 1, ts.get? (ts.length - 2), ts.get? (ts.length - 1) with
  | some oq, some ob, some cb, some cq =>
    oq.ttype == .oQuote && ob.ttype == .templateInterp &&
      cb.ttype == .templateSeqEnd && cq.ttype == .cQuote
  | _, _, _, _ => false

/-- The interior slice `tokens[2 : len(tokens)-2]` of `formatValueExpr`. -/
def insideOf (ts : List Token) : List Token :=
  (ts.drop 2).take (ts.length - 4)

def oParenTok : Token := { ttype := .oParen, bytes := ['('] }
def cParenTok : Token := { ttype := .cParen, bytes := [')'] }

/-- `formatters.go formatValueExpr`: unwrap a `"${ ... }"` expression.
The three flags of the source's final loop (lines 256-268) are written
directly: its switch marks `hasLeadingParen` exactly when token 0 is an
open paren, `isMultiLine` exactly when some token is a newline (a newline
is never an open paren, so the first case never shadows it), and
`hasTrailingParen` exactly when the last token is a close paren (a close
paren is neither an open paren nor a newline, so neither earlier case
shadows it). -/
def formatValueExpr (tokens : List Token) : List Token :=
  if tokens.length < 5 then tokens
  else if !wrapShape tokens then tokens
  else
    let inside := insideOf tokens
    if !scanInterior 0 inside then tokens
    else
      let trimmed := trimNewlines inside
      let isMultiLine := trimmed.any (fun t => t.ttype == .newline)
      let hasLeadingParen :=
        match trimmed.head? with
        | some t => t.ttype == .oParen
        | none => false
      let hasTrailingParen :=
        match trimmed.getLast? with
        | some t => t.ttype == .cParen
        | none => false
      if isMultiLine && !(hasLeadingParen && hasTrailingParen) then
        oParenTok :: trimmed ++ [cParenTok]
      else trimmed

def identTok (s : String) : Token := { ttype := .ident, bytes := s.toList }

/-- `formatters.go formatTypeExpr`: upgrade legacy `variable` type syntax. -/
def formatTypeExpr (tokens : List Token) : List Token :=
  match tokens with
  | [kwTok] =>
    if kwTok.ttype == .ident then
      if kwTok.bytes == "list".toList || kwTok.bytes == "map".toList
          || kwTok.bytes == "set".toList then
        [kwTok, oParenTok, identTok "any", cParenTok]
      else tokens
    else tokens
  | [oq, strTok, cq] =>
    if oq.ttype == .oQuote && strTok.ttype == .quotedLit && cq.ttype == .cQuote then
      if strTok.bytes == "string".toList then [identTok "string"]
      else if strTok.bytes == "list".toList then
        [identTok "list", oParenTok, identTok "string", cParenTok]
      else if strTok.bytes == "map".toList then
        [identTok "map", oParenTok, identTok "string", cParenTok]
      else tokens
    else tokens
  | _ => tokens

/-- The attribute dispatch of `formatBody` (formatters.go 128-136): the
`type` attribute of a body whose path is exactly `[variable]` goes to
`formatTypeExpr`, every other attribute to `formatValueExpr`. -/
def canonAttrExpr (inBlocks : List String) (name : String) (expr : List Token) : List Token :=
  if inBlocks == ["variable"] && name == "type" then formatTypeExpr expr
  else formatValueExpr expr

/-- Net quote nesting contributed by one token, as counted by the scan. -/
def quoteDelta (t : Token) : Int :=
  if t.ttype == .oQuote then 1 else if t.ttype == .cQuote then -1 else 0

/-- Quote depth in front of position `i`: open quotes minus close quotes
among the first `i` tokens. -/
def netQuotes (ts : List Token) : Int :=
  (ts.map quoteDelta).sum

/-- A token that makes the interior scan bail out: an interpolation
delimiter or quoted literal text. -/
def badValueTok (t : Token) : Bool :=
  t.ttype == .templateInterp || t.ttype == .templateSeqEnd || t.ttype == .quotedLit

example : formatTypeExpr [identTok "list"] =
    [identTok "list", oParenTok, identTok "any", cParenTok] := by decide

example :
    formatValueExpr [⟨.oQuote, ['"'], 1⟩, ⟨.templateInterp, "$\x7b".toList, 1⟩,
      identTok "var.foo", ⟨.templateSeqEnd, ['}'], 1⟩, ⟨.cQuote, ['"'], 1⟩] =
    [identTok "var.foo"] := by decide

/-!
### The body tree model

`hclwrite` bodies are modelled as ordered node lists: attributes (with
their leading trivia tokens and expression tokens), nested blocks, and
the bare newlines that `Body.AppendNewline` emits.  Attribute names are
unique per body (enforced by the source grammar).
-/

inductive Node where
  | attr (name : String) (lead : List Token) (expr : List Token)
  | blk (btype : String) (labels : List String) (body : List Node)
  | nl
deriving Repr

/-- `helpers.go MetaArgumentNames`. -/
def MetaArgumentNames : List String :=
  ["count", "depends_on", "for_each", "lifecycle", "provider", "providers"]

/-- `helpers.go TopLevelBlocks`. -/
def TopLevelBlocks : List String :=
  ["data", "locals", "module", "output", "provider", "resource", "terraform", "variable"]

/-- `helpers.go isMetaAttribute`. -/
def isMetaAttribute (name : String) : Bool :=
  MetaArgumentNames.contains name

/-- `helpers.go isModuleBlock`. -/
def isModuleBlock (inBlocks : List String) : Bool :=
  inBlocks == ["module"]

/-- `helpers.go isModuleSrcVerAttribute`. -/
def isModuleSrcVerAttribute (name : String) : Bool :=
  (["source", "version"] : List String).contains name

def nodeAttrName : Node → Option String
  | .attr name _ _ => some name
  | _ => none

def isAttrNode : Node → Bool
  | .attr _ _ _ => true
  | _ => false

def isBlockNode : Node → Bool
  | .blk _ _ _ => true
  | _ => false

def nodeBlockType : Node → String
  | .blk t _ _ => t
  | _ => ""

/-- The attributes of a body in source order (`Body.Attributes()` as an
association list keyed by the unique names). -/
def attrNodes (nodes : List Node) : List Node := nodes.filter isAttrNode

/-- The nested blocks of a body in source order (`Body.Blocks()`). -/
def blockNodes (nodes : List Node) : List Node := nodes.filter isBlockNode

/-- `helpers.go containsMetaAttributes`, over the attribute list. -/
def containsMetaAttributes (attrs : List Node) : Bool :=
  attrs.any (fun a =>
    match nodeAttrName a with
    | some n => isMetaAttribute n
    | none => false)

/-- `helpers.go containsNonMetaAttributes`, over the attribute list. -/
def containsNonMetaAttributes (attrs : List Node) : Bool :=
  attrs.any (fun a =>
    match nodeAttrName a with
    | some n => !isMetaAttribute n
    | none => false)

/-- Byte-wise (= code-point-wise) string order, as Go compares strings. -/
def charListLe : List Char → List Char → Bool
  | [], _ => true
  | _ :: _, [] => false
  | a :: as, b :: bs => if a < b then true else if b < a then false else charListLe as bs

def strLe (a b : String) : Bool := charListLe a.toList b.toList

def insertSortedStr (x : String) : List String → List String
  | [] => [x]
  | y :: ys => if strLe x y then x :: y :: ys else y :: insertSortedStr x ys

/-- `sort.Strings` on the attribute names (all distinct, so any sorted
order is the sorted order). -/
def sortStrings (l : List String) : List String := l.foldr insertSortedStr []

def insertSortedBlk (x : Node) : List Node → List Node
  | [] => [x]
  | y :: ys =>
    if strLe (nodeBlockType x) (nodeBlockType y) then x :: y :: ys
    else y :: insertSortedBlk x ys

/-- The `sort.Slice(blocks, Type() < Type())` call of formatters.go 124.
Go's `sort.Slice` promises only an order sorted by the comparison, not
stability; this embedding fixes one concrete sorted order (insertion
sort).  Claim C4, which is about the unspecified equal-key order, is not
settled against this modelling choice. -/
def sortBlocksByType (blocks : List Node) : List Node := blocks.foldr insertSortedBlk []

/-- `attr.BuildTokens(nil)`: leading trivia, name, equals sign,
expression tokens, trailing newline. -/
def buildAttrTokens : Node → List Token
  | .attr name lead expr =>
    lead ++ [identTok name, { ttype := .other, bytes := ['='] }] ++ expr
      ++ [{ ttype := .newline, bytes := ['\n'] }]
  | _ => []

/-- `helpers.go appendAttribute`: an attribute whose built tokens begin
with a comment is preceded by one extra blank line unless its index (in
the sorted name list) is zero. -/
def appendAttributeItems (a : Node) (index : Nat) : List Node :=
  (if index > 0 &&
      (match (buildAttrTokens a).head? with
       | some t => t.ttype == .comment
       | none => false)
   then [Node.nl] else []) ++ [a]

/-- `helpers.go appendBlock`: a blank line before the block at position
`index` of the sorted block list when it is first or its type differs
from its predecessor there. -/
def appendBlockItems (blocks : List Node) (index : Nat) (b : Node) : List Node :=
  (if index == 0 then [Node.nl]
   else
     match blocks.get? (index - 1) with
     | some prev => if nodeBlockType b == nodeBlockType prev then [] else [Node.nl]
     | none => [Node.nl]) ++ [b]

/-- Lookup in the `Body.Attributes()` map. -/
def findAttr (attrs : List Node) (name : String) : Option Node :=
  attrs.find? (fun a => nodeAttrName a == some name)

def emitAttrAt (attrs : List Node) (p : Nat × String) : List Node :=
  match findAttr attrs p.2 with
  | some a => appendAttributeItems a p.1
  | none => []

/-- The non-root re-emission of `formatBody` (formatters.go 140-177): the
body is cleared and rebuilt as five groups, written here as the source
writes them - each attribute loop ranges over the full sorted name list
with its membership test inside the loop, and each block loop over the
full sorted block list. -/
def emitGroups (inBlocks : List String) (nodes : List Node) : List Node :=
  let attrs := attrNodes nodes
  let attrNames := sortStrings (attrs.filterMap nodeAttrName)
  let blocks := sortBlocksByType (blockNodes nodes)
  let ga :=
    if isModuleBlock inBlocks then
      Node.nl :: (attrNames.enum.map (fun p =>
        if isModuleSrcVerAttribute p.2 then emitAttrAt attrs p else [])).flatten
    else []
  let gb :=
    if containsMetaAttributes attrs then
      Node.nl :: (attrNames.enum.map (fun p =>
        if isMetaAttribute p.2 then emitAttrAt attrs p else [])).flatten
    else []
  let gc :=
    if containsNonMetaAttributes attrs then
      Node.nl :: (attrNames.enum.map (fun p =>
        if !isMetaAttribute p.2 &&
            !(isModuleBlock inBlocks && isModuleSrcVerAttribute p.2) then
          emitAttrAt attrs p
        else [])).flatten
    else []
  let gd :=
    (blocks.enum.map (fun p =>
      if !isMetaAttribute (nodeBlockType p.2) then appendBlockItems blocks p.1 p.2
      else [])).flatten
  let ge :=
    (blocks.enum.map (fun p =>
      if isMetaAttribute (nodeBlockType p.2) then appendBlockItems blocks p.1 p.2
      else [])).flatten
  ga ++ gb ++ gc ++ gd ++ ge

mutual
/-- One node of `formatBody`'s walk: attribute expressions are
canonicalized in place; a nested block's body is fully formatted (the
source formats child bodies after the parent's re-emission; child
formatting touches nothing the re-emission keys on - names, types,
labels, leading trivia - so formatting the children first is
equivalent); `SetLabels(Labels())` keeps the label values. -/
def formatNode (inBlocks : List String) : Node → Node
  | .attr name lead expr => .attr name lead (canonAttrExpr inBlocks name expr)
  | .blk t ls body =>
    .blk t ls (emitGroups (inBlocks ++ [t]) (formatNodes (inBlocks ++ [t]) body))
  | .nl => .nl

def formatNodes (inBlocks : List String) : List Node → List Node
  | [] => []
  | n :: rest => formatNode inBlocks n :: formatNodes inBlocks rest
end

/-- `formatters.go formatBody`: the root body (empty path) keeps its node
sequence, only canonicalizing attribute expressions and recursing into
blocks; every other body is additionally cleared and re-emitted in
groups. -/
def formatBody (inBlocks : List String) (nodes : List Node) : List Node :=
  if inBlocks.isEmpty then formatNodes inBlocks nodes
  else emitGroups inBlocks (formatNodes inBlocks nodes)

example :
    formatBody ["module"]
      [.attr "version" [] [identTok "v"], .attr "source" [] [identTok "s"]] =
    [Node.nl, .attr "source" [] [identTok "s"], .attr "version" [] [identTok "v"], Node.nl] := by
  rfl

/-!
### The lexical normalizer

`formatters.go formatLexTokens` walks the lexed token stream by index,
with one-token lookbehind, two-token lookahead, and a skip-ahead cursor
for dangling-comment runs.  The loop is written with explicit fuel; one
iteration always advances the index, so `length + 1` fuel is enough for
the loop to terminate exactly as the source's `range` loop does.
-/

/-- The `^//` to `#` rewrite applied to a comment token's bytes
(formatters.go 43-47): `regexp.MustCompile("^\\/\\/")` anchored at the
start, so it replaces at most the one leading occurrence, inserting no
space. -/
def rewriteSlashComment : List Char → List Char
  | '/' :: '/' :: rest => '#' :: rest
  | s => s

/-- The inner consumption loop of the dangling-comment handler
(formatters.go 94-107): greedily take following comment and newline
tokens, rewriting each consumed newline to a `#` marker line, and report
the bytes plus the index after the run.  When the stream ends inside a
run the source would index past the end; lexed streams always end with
an EOF token, so that case cannot arise and is modelled as stopping. -/
def danglingRun (toks : List Token) : Nat → Nat → List Char × Nat
  | 0, ii => ([], ii)
  | fuel + 1, ii =>
    match toks.get? ii with
    | none => ([], ii)
    | some t =>
      if t.ttype == .comment then
        let r := danglingRun toks fuel (ii + 1)
        (t.bytes ++ r.1, r.2)
      else if t.ttype == .newline then
        let r := danglingRun toks fuel (ii + 1)
        ("#\n".toList ++ r.1, r.2)
      else ([], ii)

/-- One outer iteration of `formatLexTokens` at index `i`, producing the
bytes it appends and continuing at the next unprocessed index (the
source instead sets `resume` and lets the `range` loop skip, which is
the same thing). -/
def formatLexTokensAux (toks : List Token) : Nat → Nat → List Char
  | 0, _ => []
  | fuel + 1, i =>
    match toks.get? i with
    | none => []
    | some token =>
      let tokenBytes :=
        if token.ttype == .comment then rewriteSlashComment token.bytes else token.bytes
      let isEmptyLine := token.ttype == .newline && token.col == 1
      let prevIsEmptyLine :=
        if i == 0 then false
        else
          match toks.get? (i - 1) with
          | some p => p.ttype == .newline && p.col == 1
          | none => false
      if isEmptyLine && prevIsEmptyLine then formatLexTokensAux toks fuel (i + 1)
      else
        let sep :=
          if i + 3 < toks.length then
            match toks.get? (i + 2) with
            | some n2 =>
              if token.ttype == .cBrace && token.col == 1
                  && !(n2.ttype == .newline && n2.col == 1) then
                ['\n']
              else []
            | none => []
          else []
        let prevIsNewline :=
          if i == 0 then false
          else
            match toks.get? (i - 1) with
            | some p => p.ttype == .newline
            | none => false
        let dang :=
          if token.ttype == .comment && token.col > 1 && prevIsNewline then
            danglingRun toks (toks.length + 1) (i + 1)
          else ([], i + 1)
        tokenBytes ++ sep ++ dang.1 ++ formatLexTokensAux toks fuel dang.2

/-- `formatters.go formatLexTokens`. -/
def formatLexTokens (toks : List Token) : List Char :=
  formatLexTokensAux toks (toks.length + 1) 0

def eofTok : Token := { ttype := .eof, bytes := [] }

example :
    formatLexTokens [{ ttype := .comment, bytes := "// hi\n".toList, col := 1 }, eofTok] =
    "# hi\n".toList := by decide

/-!
### The byte-level pass `main.go formatFile`

Three regex substitutions over the raw output bytes, each modelled as a
left-to-right scanner with the same leftmost, non-overlapping match
discipline as Go's `ReplaceAll`.
-/

/-- Go's regexp `\s` class: `[\t\n\f\r ]`. -/
def isGoSpace (c : Char) : Bool :=
  c == ' ' || c == '\t' || c == '\n' || c == '\x0c' || c == '\x0d'

/-- `(?m)(^\n{2,})` replaced by a single newline: at a line start, a
maximal run of two or more newlines collapses to one.  The second flag
records that the scanner is inside a matched run whose remaining
newlines are consumed. -/
def collapseBlankLinesAux : Bool → Bool → List Char → List Char
  | _, _, [] => []
  | atStart, skipping, c :: rest =>
    if skipping && c == '\n' then collapseBlankLinesAux true true rest
    else if atStart && c == '\n' && rest.head? == some '\n' then
      '\n' :: collapseBlankLinesAux true true rest
    else c :: collapseBlankLinesAux (c == '\n') false rest

def collapseBlankLines (src : List Char) : List Char :=
  collapseBlankLinesAux true false src

/-- The alternatives of the second regex of `formatFile`: the top-level
block type names followed by the three comment openers. -/
def blockSepAlternatives : List (List Char) :=
  (TopLevelBlocks.map String.toList) ++ ["#".toList, "//".toList, "/*".toList]

def startsWithAnyAlt (l : List Char) : Bool :=
  blockSepAlternatives.any (fun k => k.isPrefixOf l)

/-- `(?m)^}\n(data|...|variable|#|//|/\*)` with the matched `}\n`
replaced by `}\n\n`: a close brace at a line start directly followed by
a top-level block keyword or comment opener gets a blank line inserted.
The matched keyword contains no newline or close brace, so rescanning it
cannot produce an overlapping match and the scanner simply continues. -/
def blockSepPassAux : Bool → List Char → List Char
  | _, [] => []
  | atStart, '}' :: '\n' :: r2 =>
    if atStart && startsWithAnyAlt r2 then '}' :: '\n' :: '\n' :: blockSepPassAux true r2
    else '}' :: blockSepPassAux false ('\n' :: r2)
  | _, c :: rest => c :: blockSepPassAux (c == '\n') rest

def blockSepPass (src : List Char) : List Char :=
  blockSepPassAux true src

/-- `/{2}\s*` replaced by `# `: every two slashes and the following
whitespace run become a hash and one space.  The flag records a pending
whitespace run still being consumed; the two-slash lookahead is written
as its own two-character arm. -/
def slashCommentsPass : Bool → List Char → List Char
  | _, [] => []
  | skipping, [c] => if skipping && isGoSpace c then [] else [c]
  | skipping, c :: c2 :: rest =>
    if c == '/' && c2 == '/' then '#' :: ' ' :: slashCommentsPass true rest
    else if skipping && isGoSpace c then slashCommentsPass true (c2 :: rest)
    else c :: slashCommentsPass false (c2 :: rest)

/-- `main.go formatFile`. -/
def formatFile (src : List Char) : List Char :=
  slashCommentsPass false (blockSepPass (collapseBlankLines src))

example : formatFile "a = 1\n\n\n\nb = 2\n".toList = "a = 1\n\nb = 2\n".toList := by decide
example : formatFile "\x7d\nresource \"a\" \"b\" \x7b\n".toList =
    "\x7d\n\nresource \"a\" \"b\" \x7b\n".toList := by decide

/-!
### The core entry point

`formatters.go formatSourceCode` lexes, runs the lexical normalizer,
re-parses, runs the structural normalizer and serializes.  Lexer, parser
and serializer belong to the external hashicorp dependency and enter the
definition as arguments.
-/

/-- `formatters.go formatSourceCode`, with the external collaborators
explicit: `lex` stands for `hclsyntax.LexConfig`, `parse` for
`hclwrite.ParseConfig` (`none` meaning the diagnostics had errors) and
`render` for `hclwrite.File.Bytes` after `formatBody` ran on the parsed
root body. -/
def formatSourceCode (lex : List Char → List Token)
    (parse : List Char → Option (List Node))
    (render : List Node → List Char) (src : List Char) : List Char :=
  let src2 := formatLexTokens (lex src)
  match parse src2 with
  | none => src2
  | some body => render (formatBody [] body)

/-!
### Claim theorems
-/

lemma netQuotes_nil : netQuotes [] = 0 := rfl

lemma netQuotes_cons (t : Token) (ts : List Token) :
    netQuotes (t :: ts) = quoteDelta t + netQuotes ts := by
  simp [netQuotes]

/-- If some token that aborts the scan sits at a prefix quote depth that
is not positive, the scan reports failure. -/
lemma scanInterior_false_of_bad :
    ∀ (pre : List Token) (q : Int) (b : Token) (post : List Token),
      badValueTok b = true → q + netQuotes pre ≤ 0 →
      scanInterior q (pre ++ b :: post) = false := by
  intro pre
  induction pre with
  | nil =>
    intro q b post hbad hle
    simp only [netQuotes_nil, add_zero] at hle
    have hq : ¬(q > 0) := by omega
    cases ht : b.ttype <;> simp_all [scanInterior, badValueTok]
  | cons p pre ih =>
    intro q b post hbad hle
    rw [netQuotes_cons] at hle
    simp only [List.cons_append, scanInterior]
    by_cases h1 : p.ttype == .oQuote
    · have hd : quoteDelta p = 1 := by simp [quoteDelta, h1]
      simp only [h1, if_true]
      exact ih (q + 1) b post hbad (by omega)
    · by_cases h2 : p.ttype == .cQuote
      · have hd : quoteDelta p = -1 := by simp [quoteDelta, h1, h2]
        simp only [h1, h2, if_false, if_true]
        exact ih (q - 1) b post hbad (by omega)
      · have hd : quoteDelta p = 0 := by simp [quoteDelta, h1, h2]
        have hrec := ih q b post hbad (by omega)
        by_cases h3 : q > 0
        · simp [h1, h2, h3, hrec]
        · by_cases h4 : p.ttype == .templateInterp || p.ttype == .templateSeqEnd
          · simp [h1, h2, h3, h4]
          · by_cases h5 : p.ttype == .quotedLit
            · simp [h1, h2, h3, h4, h5]
            · simp [h1, h2, h3, h4, h5, hrec]

/-- If every token that could abort the scan sits at positive prefix
quote depth, the scan succeeds. -/
lemma scanInterior_true_of_ok :
    ∀ (ts : List Token) (q : Int),
      (∀ pre b post, ts = pre ++ b :: post → badValueTok b = true → 0 < q + netQuotes pre) →
      scanInterior q ts = true := by
  intro ts
  induction ts with
  | nil => intro q _; rfl
  | cons t rest ih =>
    intro q H
    have Hshift : ∀ q2, q2 = q + quoteDelta t →
        ∀ pre b post, rest = pre ++ b :: post → badValueTok b = true →
          0 < q2 + netQuotes pre := by
      intro q2 hq2 pre b post hdecomp hbad
      have := H (t :: pre) b post (by rw [hdecomp]; rfl) hbad
      rw [netQuotes_cons] at this
      omega
    simp only [scanInterior]
    by_cases h1 : t.ttype == .oQuote
    · have hd : quoteDelta t = 1 := by simp [quoteDelta, h1]
      simp only [h1, if_true]
      exact ih (q + 1) (Hshift (q + 1) (by omega))
    · by_cases h2 : t.ttype == .cQuote
      · have hd : quoteDelta t = -1 := by simp [quoteDelta, h1, h2]
        simp only [h1, h2, if_false, if_true]
        exact ih (q - 1) (Hshift (q - 1) (by omega))
      · have hd : quoteDelta t = 0 := by simp [quoteDelta, h1, h2]
        have hrec := ih q (Hshift q (by omega))
        by_cases h3 : q > 0
        · simp [h1, h2, h3, hrec]
        · have hbadf : badValueTok t = false := by
            by_contra hb
            have hb2 : badValueTok t = true := by
              cases hbt : badValueTok t
              · exact absurd hbt hb
              · rfl
            have := H [] t rest rfl hb2
            rw [netQuotes_nil] at this
            omega
          simp only [badValueTok, Bool.or_eq_false_iff] at hbadf
          simp [h1, h2, h3, hbadf.1.1, hbadf.1.2, hbadf.2, hrec]

def oQuoteTok : Token := { ttype := .oQuote, bytes := ['"'] }
def cQuoteTok : Token := { ttype := .cQuote, bytes := ['"'] }
def interpTok : Token := { ttype := .templateInterp, bytes := "$\x7b".toList }
def seqEndTok : Token := { ttype := .templateSeqEnd, bytes := ['}'] }
def newlineTok : Token := { ttype := .newline, bytes := ['\n'] }

/-- Claim C6: `formatValueExpr` returns its input unchanged whenever the
sequence has fewer than 5 tokens, or the delimiters are not exactly
open-quote + interpolation-open and interpolation-close + close-quote,
or an interpolation delimiter occurs in the interior at nested-quote
depth 0, or a quoted-literal-text token occurs in the interior at depth
0; it never produces a false-positive unwrap. -/
theorem c6_formatValueExpr_unchanged (ts : List Token)
    (h : ts.length < 5
      ∨ wrapShape ts = false
      ∨ (∃ pre t post, insideOf ts = pre ++ t :: post ∧
          (t.ttype = .templateInterp ∨ t.ttype = .templateSeqEnd) ∧ netQuotes pre = 0)
      ∨ (∃ pre t post, insideOf ts = pre ++ t :: post ∧
          t.ttype = .quotedLit ∧ netQuotes pre = 0)) :
    formatValueExpr ts = ts := by
  by_cases h5 : ts.length < 5
  · simp [formatValueExpr, h5]
  · by_cases hw : wrapShape ts = true
    · have hscan : scanInterior 0 (insideOf ts) = false := by
        rcases h with h | h | h | h
        · exact absurd h h5
        · rw [h] at hw; exact absurd hw (by simp)
        · obtain ⟨pre, t, post, hdec, hty, hnet⟩ := h
          have hbad : badValueTok t = true := by
            rcases hty with hty | hty <;> simp [badValueTok, hty]
          rw [hdec]
          exact scanInterior_false_of_bad pre 0 t post hbad (by omega)
        · obtain ⟨pre, t, post, hdec, hty, hnet⟩ := h
          have hbad : badValueTok t = true := by simp [badValueTok, hty]
          rw [hdec]
          exact scanInterior_false_of_bad pre 0 t post hbad (by omega)
      simp [formatValueExpr, h5, hw, hscan]
    · have hw2 : wrapShape ts = false := by
        revert hw; cases wrapShape ts <;> simp
      simp [formatValueExpr, h5, hw2]

/-- The two-top-level-interpolations example of the spec,
`"${foo}${bar}"`. -/
def c6ts : List Token :=
  [oQuoteTok, interpTok, identTok "foo", seqEndTok,
   interpTok, identTok "bar", seqEndTok, cQuoteTok]

/-- Witness for C6 at `"${foo}${bar}"`: the interior holds an
interpolation-close at depth 0, and the expression is left unchanged. -/
theorem c6_witness : formatValueExpr c6ts = c6ts :=
  c6_formatValueExpr_unchanged c6ts
    (Or.inr (Or.inr (Or.inl
      ⟨[identTok "foo"], seqEndTok, [interpTok, identTok "bar"],
        by decide, Or.inr rfl, by decide⟩)))

/-- Claim C7: on the single wrapped-interpolation shape - delimiters in
place and every interior interpolation delimiter or literal-text token
at positive nested-quote depth (for the lexer's balanced token streams
this is exactly "no such token at depth 0") - `formatValueExpr` returns
the interior trimmed of leading and trailing newline tokens, wrapped in
exactly one added parenthesis pair when the trimmed interior contains a
newline token and is not already parenthesized at both ends, and as-is
otherwise. -/
theorem c7_formatValueExpr_unwrap (ts : List Token)
    (hlen : 5 ≤ ts.length) (hw : wrapShape ts = true)
    (hdepth : ∀ pre b post, insideOf ts = pre ++ b :: post → badValueTok b = true →
      0 < netQuotes pre) :
    formatValueExpr ts =
      (let trimmed := trimNewlines (insideOf ts)
       if trimmed.any (fun t => t.ttype == .newline)
           && !((match trimmed.head? with
                 | some t => t.ttype == .oParen
                 | none => false)
                && (match trimmed.getLast? with
                    | some t => t.ttype == .cParen
                    | none => false)) then
         oParenTok :: trimmed ++ [cParenTok]
       else trimmed) := by
  have h5 : ¬ ts.length < 5 := by omega
  have hscan : scanInterior 0 (insideOf ts) = true :=
    scanInterior_true_of_ok (insideOf ts) 0 (by
      intro pre b post hdec hbad
      have := hdepth pre b post hdec hbad
      omega)
  simp [formatValueExpr, h5, hw, hscan]

def c7ts : List Token :=
  [oQuoteTok, interpTok, identTok "var.foo", seqEndTok, cQuoteTok]

/-- Witness for C7 at `"${var.foo}"`: the shape hypotheses hold and the
expression unwraps to the bare `var.foo`. -/
theorem c7_witness :
    5 ≤ c7ts.length ∧ wrapShape c7ts = true ∧ formatValueExpr c7ts = [identTok "var.foo"] :=
  ⟨by decide, by decide,
    (c7_formatValueExpr_unwrap c7ts (by decide) (by decide) (by
      intro pre b post hdec hbad
      have hins : insideOf c7ts = [identTok "var.foo"] := by decide
      rw [hins] at hdec
      rcases pre with _ | ⟨p, pre⟩
      · simp at hdec
        rw [← hdec.1] at hbad
        exact absurd hbad (by decide)
      · have hlen := congrArg List.length hdec
        simp at hlen)).trans (by decide)⟩

/-- Claim C8: with path exactly `[variable]` and attribute name `type`
the dispatcher uses `formatTypeExpr`, which rewrites a single `list`,
`map` or `set` identifier to `<identifier>(any)`; rewrites the quoted
three-token forms `"string"`, `"list"`, `"map"` to `string`,
`list(string)`, `map(string)`; and leaves every other single token,
every non-quoted or other-literal three-token form, and every other
token count unchanged. -/
theorem c8_formatTypeExpr_cases :
    (∀ e : List Token, canonAttrExpr ["variable"] "type" e = formatTypeExpr e)
    ∧ (∀ kw : Token, kw.ttype = .ident →
        (kw.bytes = "list".toList ∨ kw.bytes = "map".toList ∨ kw.bytes = "set".toList) →
        formatTypeExpr [kw] = [kw, oParenTok, identTok "any", cParenTok])
    ∧ (∀ kw : Token, kw.ttype = .ident →
        kw.bytes ≠ "list".toList → kw.bytes ≠ "map".toList → kw.bytes ≠ "set".toList →
        formatTypeExpr [kw] = [kw])
    ∧ (∀ kw : Token, kw.ttype ≠ .ident → formatTypeExpr [kw] = [kw])
    ∧ (∀ oq s cq : Token, oq.ttype = .oQuote → s.ttype = .quotedLit → cq.ttype = .cQuote →
        formatTypeExpr [oq, s, cq] =
          (if s.bytes = "string".toList then [identTok "string"]
           else if s.bytes = "list".toList then
             [identTok "list", oParenTok, identTok "string", cParenTok]
           else if s.bytes = "map".toList then
             [identTok "map", oParenTok, identTok "string", cParenTok]
           else [oq, s, cq]))
    ∧ (∀ oq s cq : Token,
        ¬(oq.ttype = .oQuote ∧ s.ttype = .quotedLit ∧ cq.ttype = .cQuote) →
        formatTypeExpr [oq, s, cq] = [oq, s, cq])
    ∧ (∀ ts : List Token, ts.length ≠ 1 → ts.length ≠ 3 → formatTypeExpr ts = ts) := by
  refine ⟨?_, ?_, ?_, ?_, ?_, ?_, ?_⟩
  · intro e; simp [canonAttrExpr]
  · intro kw h1 h2
    rcases h2 with h2 | h2 | h2 <;> simp [formatTypeExpr, h1, h2]
  · intro kw h1 h2 h3 h4
    simp [formatTypeExpr, h1, h2, h3, h4]
    exact ⟨⟨by simpa using h2, by simpa using h3⟩, by simpa using h4⟩
  · intro kw h1
    simp [formatTypeExpr, h1]
  · intro oq s cq h1 h2 h3
    by_cases hs1 : s.bytes = "string".toList
    · simp [formatTypeExpr, h1, h2, h3, hs1]
    · by_cases hs2 : s.bytes = "list".toList
      · simp [formatTypeExpr, h1, h2, h3, hs1, hs2]
      · by_cases hs3 : s.bytes = "map".toList
        · simp [formatTypeExpr, h1, h2, h3, hs1, hs2, hs3]
        · simp [formatTypeExpr, h1, h2, h3, hs1, hs2, hs3]
  · intro oq s cq hns
    have hc : (oq.ttype == .oQuote && s.ttype == .quotedLit && cq.ttype == .cQuote) = false := by
      by_contra hb
      have hb2 : (oq.ttype == .oQuote && s.ttype == .quotedLit && cq.ttype == .cQuote) = true := by
        cases hx : (oq.ttype == .oQuote && s.ttype == .quotedLit && cq.ttype == .cQuote)
        · exact absurd hx hb
        · rfl
      simp at hb2
      exact hns ⟨hb2.1.1, hb2.1.2, hb2.2⟩
    simp [formatTypeExpr, hc]
  · intro ts h1 h3
    rcases ts with _ | ⟨a, _ | ⟨b, _ | ⟨c, _ | ⟨d, r⟩⟩⟩⟩
    · rfl
    · simp at h1
    · rfl
    · simp at h3
    · rfl

/-- Witness for C8: `type = list` becomes `type = list(any)`, the legacy
`type = "list"` becomes `list(string)`, `"string"` becomes `string`, and
a two-token expression is untouched. -/
theorem c8_witness :
    formatTypeExpr [identTok "list"] = [identTok "list", oParenTok, identTok "any", cParenTok]
    ∧ formatTypeExpr [oQuoteTok, { ttype := .quotedLit, bytes := "list".toList }, cQuoteTok]
        = [identTok "list", oParenTok, identTok "string", cParenTok]
    ∧ formatTypeExpr [oQuoteTok, { ttype := .quotedLit, bytes := "string".toList }, cQuoteTok]
        = [identTok "string"]
    ∧ formatTypeExpr [identTok "a", identTok "b"] = [identTok "a", identTok "b"] :=
  ⟨c8_formatTypeExpr_cases.2.1 (identTok "list") rfl (Or.inl rfl),
   (c8_formatTypeExpr_cases.2.2.2.2.1 oQuoteTok
      { ttype := .quotedLit, bytes := "list".toList } cQuoteTok rfl rfl rfl).trans (by decide),
   (c8_formatTypeExpr_cases.2.2.2.2.1 oQuoteTok
      { ttype := .quotedLit, bytes := "string".toList } cQuoteTok rfl rfl rfl).trans (by decide),
   c8_formatTypeExpr_cases.2.2.2.2.2.2 [identTok "a", identTok "b"] (by decide) (by decide)⟩

/-- The observable identity of a body node: attribute name, block type
plus labels, or bare newline.  Expressions and nested body contents are
deliberately not part of the signature. -/
inductive NodeSig where
  | attrSig (name : String)
  | blkSig (btype : String) (labels : List String)
  | nlSig
deriving DecidableEq, Repr

def sigOf : Node → NodeSig
  | .attr n _ _ => .attrSig n
  | .blk t ls _ => .blkSig t ls
  | .nl => .nlSig

lemma sigOf_formatNode (p : List String) (n : Node) : sigOf (formatNode p n) = sigOf n := by
  cases n <;> simp [formatNode, sigOf]

lemma map_sigOf_formatNodes (p : List String) :
    ∀ ns : List Node, (formatNodes p ns).map sigOf = ns.map sigOf := by
  intro ns
  induction ns with
  | nil => rfl
  | cons n rest ih => simp [formatNodes, sigOf_formatNode, ih]

/-- Claim C5: at the root body (empty path) the node sequence keeps its
exact order and identity - every attribute keeps its name and place,
every block keeps its type and labels and place, nothing is cleared,
reordered or regrouped; only expressions and nested bodies change. -/
theorem c5_root_sequence_preserved (nodes : List Node) :
    (formatBody [] nodes).map sigOf = nodes.map sigOf := by
  simp only [formatBody, List.isEmpty_nil, if_true]
  exact map_sigOf_formatNodes [] nodes

lemma flatten_map_ite {α β : Type} (f : α → List β) (p : α → Bool) :
    ∀ l : List α,
      (l.map (fun x => if p x then f x else [])).flatten = ((l.filter p).map f).flatten := by
  intro l
  induction l with
  | nil => rfl
  | cons a t ih => by_cases h : p a <;> simp [h, ih]

/-- The non-root re-emission as the amended claim describes it: the five
groups in order, written filter-first.  A blank line precedes group (a)
whenever the path is exactly `module` (even with no source or version
attribute present), group (b) exactly when some meta-argument attribute
exists, and group (c) exactly when some non-meta attribute exists (even
when all of those are a module's source/version, already emitted in
(a)); a blank line precedes the block at position `i` of the type-sorted
block list exactly when `i = 0` or its type differs from its predecessor
there; an attribute whose built tokens begin with a comment gets one
extra preceding blank line unless its sorted-name index is zero. -/
def amendedEmission (inBlocks : List String) (nodes : List Node) : List Node :=
  let attrs := attrNodes nodes
  let attrNames := sortStrings (attrs.filterMap nodeAttrName)
  let blocks := sortBlocksByType (blockNodes nodes)
  let ga :=
    if isModuleBlock inBlocks then
      Node.nl :: ((attrNames.enum.filter (fun p => isModuleSrcVerAttribute p.2)).map
        (emitAttrAt attrs)).flatten
    else []
  let gb :=
    if containsMetaAttributes attrs then
      Node.nl :: ((attrNames.enum.filter (fun p => isMetaAttribute p.2)).map
        (emitAttrAt attrs)).flatten
    else []
  let gc :=
    if containsNonMetaAttributes attrs then
      Node.nl :: ((attrNames.enum.filter (fun p =>
        !isMetaAttribute p.2 &&
          !(isModuleBlock inBlocks && isModuleSrcVerAttribute p.2))).map
        (emitAttrAt attrs)).flatten
    else []
  let gd :=
    ((blocks.enum.filter (fun p => !isMetaAttribute (nodeBlockType p.2))).map
      (fun p => appendBlockItems blocks p.1 p.2)).flatten
  let ge :=
    ((blocks.enum.filter (fun p => isMetaAttribute (nodeBlockType p.2))).map
      (fun p => appendBlockItems blocks p.1 p.2)).flatten
  ga ++ gb ++ gc ++ gd ++ ge

/-- Claim C9, amended: for every non-root body the normalizer clears the
body and re-emits the canonicalized content exactly as
`amendedEmission` describes. -/
theorem c9_nonroot_emission (inBlocks : List String) (nodes : List Node)
    (h : inBlocks ≠ []) :
    formatBody inBlocks nodes = amendedEmission inBlocks (formatNodes inBlocks nodes) := by
  have he : inBlocks.isEmpty = false := by
    cases inBlocks
    · exact absurd rfl h
    · rfl
  rw [formatBody, he]
  simp only [Bool.false_eq_true, if_false]
  rw [emitGroups, amendedEmission]
  simp only [flatten_map_ite]

/-- Witness body for the amended C9 theorem: a `resource` body with two
plain attributes and a meta-argument. -/
def c9WitnessBody : List Node :=
  [Node.attr "instance_type" [] [identTok "t"],
   Node.attr "ami" [] [identTok "a"],
   Node.attr "count" [] [identTok "n"]]

/-- Witness for C9: the amended emission equation at a concrete
`resource` body. -/
theorem c9_witness :
    (["resource"] : List String) ≠ [] ∧
    formatBody ["resource"] c9WitnessBody
      = amendedEmission ["resource"] (formatNodes ["resource"] c9WitnessBody) :=
  ⟨by decide, c9_nonroot_emission ["resource"] c9WitnessBody (by decide)⟩

/-- The claim's literal blank-line discipline: each non-empty group is
preceded by exactly one blank line and an empty group emits nothing. -/
def leadBlank (g : List Node) : List Node :=
  if g.isEmpty then g else Node.nl :: g

/-- Blocks of one group with a blank line between adjacent blocks of
differing types, none inside a same-type run and none before the first. -/
def blocksWithSeps : List Node → List Node
  | [] => []
  | [b] => [b]
  | b :: b2 :: rest =>
    b :: ((if nodeBlockType b2 == nodeBlockType b then [] else [Node.nl])
      ++ blocksWithSeps (b2 :: rest))

/-- Claim C9 exactly as stated: the five groups in order, each non-empty
group preceded by one blank line, no blank line for an empty group. -/
def claimedEmission (inBlocks : List String) (nodes : List Node) : List Node :=
  let attrs := attrNodes nodes
  let attrNames := sortStrings (attrs.filterMap nodeAttrName)
  let blocks := sortBlocksByType (blockNodes nodes)
  let ga :=
    if isModuleBlock inBlocks then
      (attrNames.filter isModuleSrcVerAttribute).filterMap (findAttr attrs)
    else []
  let gb := (attrNames.filter isMetaAttribute).filterMap (findAttr attrs)
  let gc :=
    (attrNames.filter (fun n =>
      !isMetaAttribute n && !(isModuleBlock inBlocks && isModuleSrcVerAttribute n))).filterMap
      (findAttr attrs)
  let gd := blocksWithSeps (blocks.filter (fun b => !isMetaAttribute (nodeBlockType b)))
  let ge := blocksWithSeps (blocks.filter (fun b => isMetaAttribute (nodeBlockType b)))
  leadBlank ga ++ leadBlank gb ++ leadBlank gc ++ leadBlank gd ++ leadBlank ge

/-- A `module` body holding only its `source` and `version` attributes. -/
def c9Body : List Node :=
  [Node.attr "version" [] [identTok "v"], Node.attr "source" [] [identTok "s"]]

/-- Counterexample for C9 as stated: on a `module` body with only
`source` and `version`, the code emits a blank line for the empty
remaining-attributes group (its guard only checks that some non-meta
attribute exists, and `source` is one), so the emission ends in a stray
blank line that the claimed no-blank-line-for-empty-groups discipline
forbids. -/
theorem c9_counterexample :
    formatBody ["module"] c9Body
      = [Node.nl, Node.attr "source" [] [identTok "s"],
         Node.attr "version" [] [identTok "v"], Node.nl] ∧
    claimedEmission ["module"] (formatNodes ["module"] c9Body)
      = [Node.nl, Node.attr "source" [] [identTok "s"],
         Node.attr "version" [] [identTok "v"]] ∧
    formatBody ["module"] c9Body ≠ claimedEmission ["module"] (formatNodes ["module"] c9Body) := by
  refine ⟨rfl, rfl, ?_⟩
  intro h
  have h1 : (formatBody ["module"] c9Body).length = 4 := rfl
  have h2 : (claimedEmission ["module"] (formatNodes ["module"] c9Body)).length = 3 := rfl
  rw [h, h2] at h1
  exact absurd h1 (by decide)

/-- Whether two adjacent slashes occur anywhere in the bytes. -/
def hasDoubleSlash : List Char → Bool
  | [] => false
  | [_] => false
  | c :: c2 :: rest => (c == '/' && c2 == '/') || hasDoubleSlash (c2 :: rest)

lemma isGoSpace_ne_slash {c : Char} (h : isGoSpace c = true) : (c == '/') = false := by
  by_cases hc : c = '/'
  · subst hc; simp [isGoSpace] at h
  · simp [hc]

/-- Bytes free of `//` pass the slash-comment rewrite untouched. -/
lemma slashCommentsPass_id_of_no_match :
    ∀ r : List Char, hasDoubleSlash r = false → slashCommentsPass false r = r := by
  intro r
  induction r with
  | nil => intro _; rfl
  | cons c rest ih =>
    intro h
    rcases rest with _ | ⟨c2, rest2⟩
    · simp [slashCommentsPass]
    · simp only [hasDoubleSlash, Bool.or_eq_false_iff] at h
      simp [slashCommentsPass, h.1, ih h.2]

/-- After a match, the pending whitespace run is consumed and the
following `//`-free bytes survive untouched. -/
lemma slashCommentsPass_skips_spaces :
    ∀ (ws rest : List Char), ws.all isGoSpace = true → hasDoubleSlash rest = false →
      (match rest.head? with | some hd => !isGoSpace hd | none => true) = true →
      slashCommentsPass true (ws ++ rest) = rest := by
  intro ws
  induction ws with
  | nil =>
    intro rest _ hds hhd
    rcases rest with _ | ⟨c, rest2⟩
    · rfl
    · simp only [List.head?] at hhd
      have hc : isGoSpace c = false := by simpa using hhd
      rcases rest2 with _ | ⟨c2, rest3⟩
      · simp [slashCommentsPass, hc]
      · simp only [hasDoubleSlash, Bool.or_eq_false_iff] at hds
        simp [slashCommentsPass, hds.1, hc,
          slashCommentsPass_id_of_no_match (c2 :: rest3) hds.2]
  | cons w ws ih =>
    intro rest hws hds hhd
    simp only [List.all_cons, Bool.and_eq_true] at hws
    rcases hX : ws ++ rest with _ | ⟨c2, X⟩
    · rcases List.append_eq_nil.mp hX with ⟨hw1, hw2⟩
      subst hw1; subst hw2
      simp [slashCommentsPass, hws.1]
    · have step : slashCommentsPass true (w :: (ws ++ rest)) = slashCommentsPass true (ws ++ rest) := by
        rw [hX]
        simp [slashCommentsPass, isGoSpace_ne_slash hws.1, hws.1]
      rw [List.cons_append, step]
      exact ih rest hws.2 hds hhd

/-- The stream the lexer produces for an indented comment run ending in
a `//` comment: a line-ending newline, an indented `#` comment that
starts the dangling run, the run-consumed `//` comment, the identifier
that ends the run, and EOF. -/
def c10DanglingStream (r : List Char) : List Token :=
  [{ ttype := .newline, bytes := ['\n'], col := 5 },
   { ttype := .comment, bytes := "# a\n".toList, col := 3 },
   { ttype := .comment, bytes := '/' :: '/' :: r, col := 3 },
   { ttype := .ident, bytes := ['x'], col := 3 },
   eofTok]

/-- Claim C10, amended: a comment token beginning with `//` is rewritten
to begin with `#` by one of two routes.  A comment the lexical pass
processes in its outer loop has the leading `//` replaced by `#` with
the remaining content unchanged and no space inserted (`// hello`
becomes `# hello` only because the space was already there; `//hello`
becomes `#hello`).  A comment consumed inside a dangling-comment run
passes the lexical pass byte-for-byte unrewritten; the byte-level pass
then rewrites every remaining `//` (such comments, and `//` inside
comment interiors) to `#` plus exactly one space, consuming the
whitespace run that follows the marker - so only on that route does the
original one-space discipline hold, and there the following whitespace
is not left untouched but collapsed.  Conjuncts: (1) the outer-loop
byte rewrite, for every content; (2) a `//` comment heading any token
stream is emitted as `#` plus its unchanged content, whatever follows;
(3) the run-consumed comment of an indented comment run is emitted raw,
for every content; (4) the byte-level rewrite turns `//` plus a
whitespace run into `#` plus one space and leaves the following
`//`-free content untouched. -/
theorem c10_comment_marker_rewrite :
    (∀ r : List Char, rewriteSlashComment ('/' :: '/' :: r) = '#' :: r)
    ∧ (∀ (r : List Char) (c : Nat) (rest : List Token), ∃ tail,
        formatLexTokens ({ ttype := .comment, bytes := '/' :: '/' :: r, col := c } :: rest)
          = ('#' :: r) ++ tail)
    ∧ (∀ r : List Char,
        formatLexTokens (c10DanglingStream r)
          = "\n# a\n".toList ++ ('/' :: '/' :: r) ++ ['x'])
    ∧ (∀ ws r : List Char, ws.all isGoSpace = true → hasDoubleSlash r = false →
        (match r.head? with | some hd => !isGoSpace hd | none => true) = true →
        slashCommentsPass false ('/' :: '/' :: (ws ++ r)) = '#' :: ' ' :: r) := by
  refine ⟨fun r => rfl, ?_, ?_, ?_⟩
  · intro r c rest
    refine ⟨formatLexTokensAux
      ({ ttype := .comment, bytes := '/' :: '/' :: r, col := c } :: rest)
      (rest.length + 1) 1, ?_⟩
    have hfuel : ({ ttype := .comment, bytes := '/' :: '/' :: r, col := c } :: rest).length + 1
        = (rest.length + 1) + 1 := by simp
    rw [formatLexTokens, hfuel, formatLexTokensAux]
    simp [rewriteSlashComment]
    intro _
    cases rest[1]? <;> rfl
  · intro r
    simp [formatLexTokens, c10DanglingStream, formatLexTokensAux, danglingRun,
      rewriteSlashComment, eofTok]
  · intro ws r hws hds hhd
    have : slashCommentsPass false ('/' :: '/' :: (ws ++ r))
        = '#' :: ' ' :: slashCommentsPass true (ws ++ r) := by
      simp [slashCommentsPass]
    rw [this, slashCommentsPass_skips_spaces ws r hws hds hhd]

/-- Witness for the amended C10: `// b` under the byte-level rewrite
becomes `# b`, and the dangling-run stream with comment `//q` emits that
comment raw. -/
theorem c10_witness :
    slashCommentsPass false ('/' :: '/' :: ([' '] ++ "b\n".toList)) = '#' :: ' ' :: "b\n".toList ∧
    formatLexTokens (c10DanglingStream "q\n".toList)
      = "\n# a\n".toList ++ ('/' :: '/' :: "q\n".toList) ++ ['x'] :=
  ⟨c10_comment_marker_rewrite.2.2.2 [' '] "b\n".toList (by decide) (by decide) (by decide),
   c10_comment_marker_rewrite.2.2.1 "q\n".toList⟩

/-- Counterexample for C10 as stated: the comment `//hello` is rewritten
to `#hello`, which does not begin with the marker followed by one
space. -/
theorem c10_counterexample :
    formatLexTokens [{ ttype := .comment, bytes := "//hello\n".toList, col := 1 }, eofTok]
      = "#hello\n".toList ∧
    ("#hello\n".toList).take 2 ≠ ['#', ' '] := by
  exact ⟨by decide, by decide⟩

/-- The token stream the hashicorp lexer produces for the input
`//c\n{`: one comment token (marker included), the stray open brace that
makes the later `hclwrite` parse fail, and the closing EOF token. -/
def c3Lexed : List Token :=
  [{ ttype := .comment, bytes := "//c\n".toList, col := 1 },
   { ttype := .oBrace, bytes := ['{'], col := 1 },
   eofTok]

def c3Src : List Char := "//c\n\x7b".toList

/-- Claim C3, amended: whenever re-parsing the lexically-normalized
intermediate fails, `formatSourceCode` returns that intermediate (the
`formatLexTokens` output) unchanged - not the original input bytes,
from which the intermediate differs whenever the lexical pass rewrote
anything. -/
theorem c3_fallback_returns_intermediate (lex : List Char → List Token)
    (parse : List Char → Option (List Node)) (render : List Node → List Char)
    (src : List Char) (h : parse (formatLexTokens (lex src)) = none) :
    formatSourceCode lex parse render src = formatLexTokens (lex src) := by
  simp [formatSourceCode, h]

/-- Witness for the amended C3 theorem at the concrete failing parse. -/
theorem c3_witness :
    (fun _ : List Char => (none : Option (List Node)))
        (formatLexTokens ((fun _ => c3Lexed) c3Src)) = none ∧
    formatSourceCode (fun _ => c3Lexed) (fun _ => none) (fun _ => []) c3Src
      = formatLexTokens ((fun _ => c3Lexed) c3Src) :=
  ⟨rfl, c3_fallback_returns_intermediate (fun _ => c3Lexed) (fun _ => none) (fun _ => []) c3Src rfl⟩

/-- Counterexample for C3 as stated: on `//c\n{` the lexical pass turns
the comment marker into `#`, the re-parse fails, and `formatSourceCode`
returns the rewritten intermediate `#c\n{`, not the original bytes. -/
theorem c3_counterexample :
    formatSourceCode (fun _ => c3Lexed) (fun _ => none) (fun _ => []) c3Src
      = "#c\n\x7b".toList ∧
    formatSourceCode (fun _ => c3Lexed) (fun _ => none) (fun _ => []) c3Src ≠ c3Src := by
  exact ⟨by decide, by decide⟩

def c1Src : List Char := "a = \"http://example.com\"\n".toList
def c1Out : List Char := "a = \"http:# example.com\"\n".toList

/-- The token sequence of the attribute expression
`"http://example.com"`: open quote, literal, close quote. -/
def c1ExprToks : List Token :=
  [oQuoteTok, { ttype := .quotedLit, bytes := "http://example.com".toList }, cQuoteTok]

/-- The text of the (unique) quoted literal of a one-attribute line. -/
def quotedPart (l : List Char) : List Char :=
  ((l.dropWhile (fun c => !(c == '"'))).drop 1).takeWhile (fun c => !(c == '"'))

/-- Claim C1 fails in the code: the structural pass leaves the attribute
`a = "http://example.com"` alone (three tokens cannot be a wrapped
interpolation), but the byte-level `formatFile` pass rewrites the `//`
inside the quoted literal to `# `, so the evaluated string value of `a`
changes from `http://example.com` to `http:# example.com`. -/
theorem c1_formatFile_corrupts_string_literal :
    formatValueExpr c1ExprToks = c1ExprToks ∧
    formatFile c1Src = c1Out ∧
    quotedPart c1Src = "http://example.com".toList ∧
    quotedPart c1Out = "http:# example.com".toList ∧
    quotedPart c1Src ≠ quotedPart c1Out := by
  exact ⟨by decide, by decide, by decide, by decide, by decide⟩
